import Mathlib

/-!
Verification development for the Fedorable repository.

This file gives a shallow embedding in Lean 4 of the task/option
configuration model and the process-execution engine implemented in
src/fedorable-gui/src/fedorable/core.py, together with the
configuration-mutation seams used by the CLI front end
(src/fedorable-gui/src/fedorable/cli.py) and the GTK front end
(src/main.py), and proves properties of that embedding.

Modelling conventions:
- Python dicts (insertion ordered, unique keys) become association lists
  `List (String × _)` kept in registry insertion order.
- Python truthiness in `x or y` for strings becomes `pyOr`: the empty
  string and a missing argument are falsy.
- the Python replace of underscore by hyphen, whose pattern is one
  character, is the character map `hyphenate`.
- Exceptions become `Except`; a raising operation returns the unchanged
  state together with the error.
- The filesystem (os.path.exists / os.access X_OK) is an abstract oracle.
- The child process is a black box: its stdout text, stderr text and
  exit code are a `ChildBehavior` parameter; thread interleaving of the
  two stream readers is an explicit schedule parameter.
-/

/-- Python `s.replace('_', '-')` for the one-character pattern used in
core.py: map underscore to hyphen. -/
def hyphenate (s : String) : String :=
  ⟨s.data.map (fun c => if c = '_' then '-' else c)⟩

/-- Python `x or d` for an optional string argument: `None` and the empty
string are falsy and select the default. -/
def pyOr (x : Option String) (d : String) : String :=
  match x with
  | none => d
  | some s => if s = "" then d else s

/-- core.py line 13: the module-level default script path (a fixed string
computed from the module location; its exact value is irrelevant to the
claims). -/
def DEFAULT_SCRIPT_PATH : String := "/fedorable-gui/fedorable.sh"

/-- core.py class FedorableTask: a maintenance task of the fedorable
script. -/
structure FedorableTask where
  name : String
  description : String
  enabled : Bool
  flag : String
deriving Repr, DecidableEq

/-- core.py FedorableTask.__init__ (lines 19 to 32):
`self.flag = flag or f"--no-{name.replace('_', '-')}"`. -/
def FedorableTask.make (name description : String) (enabled : Bool := true)
    (flag : Option String := none) : FedorableTask :=
  { name := name
    description := description
    enabled := enabled
    flag := pyOr flag ("--no-" ++ hyphenate name) }

/-- core.py class FedorableOption: a command line option of the fedorable
script. -/
structure FedorableOption where
  name : String
  description : String
  enabled : Bool
  flag : String
deriving Repr, DecidableEq

/-- core.py FedorableOption.__init__ (lines 42 to 55):
`self.flag = flag or f"--{name.replace('_', '-')}"`. -/
def FedorableOption.make (name description : String) (enabled : Bool := false)
    (flag : Option String := none) : FedorableOption :=
  { name := name
    description := description
    enabled := enabled
    flag := pyOr flag ("--" ++ hyphenate name) }

/-- core.py FedorableCore.TASKS (lines 66 to 78): the class-level task
registry, in insertion order. -/
def TASKS : List (String × FedorableTask) :=
  [ ("update", FedorableTask.make "update" "Update System Packages" true),
    ("autoremove", FedorableTask.make "autoremove" "Autoremove Unused Packages" true),
    ("clean_dnf", FedorableTask.make "clean_dnf" "Clean DNF Cache" true),
    ("clean_kernels", FedorableTask.make "clean_kernels" "Remove Old Kernels" true),
    ("clean_journal", FedorableTask.make "clean_journal" "Clean System Journal" true),
    ("clean_temp", FedorableTask.make "clean_temp" "Clean Temporary Files" true),
    ("update_grub", FedorableTask.make "update_grub" "Update GRUB/Bootloader" true),
    ("clean_flatpak", FedorableTask.make "clean_flatpak" "Clean/Update Flatpak" true),
    ("optimize_rpmdb", FedorableTask.make "optimize_rpmdb" "Optimize RPM Database" true),
    ("reset_failed_units", FedorableTask.make "reset_failed_units" "Reset Failed Systemd Units" true),
    ("trim", FedorableTask.make "trim" "Run SSD TRIM" true) ]

/-- core.py FedorableCore.OPTIONS (lines 81 to 86): the class-level option
registry, in insertion order. -/
def OPTIONS : List (String × FedorableOption) :=
  [ ("yes", FedorableOption.make "yes" "Assume \x27Yes\x27 to prompts" false),
    ("dry_run", FedorableOption.make "dry_run" "Dry Run (No changes made)" false),
    ("check_only", FedorableOption.make "check_only" "Check for Updates Only" false),
    ("quiet", FedorableOption.make "quiet" "Quiet Mode (Less output)" false) ]

/-- core.py class FedorableCore instance state: the configured script path
and the per-instance working copies of the registries. -/
structure FedorableCore where
  script_path : String
  tasks : List (String × FedorableTask)
  options : List (String × FedorableOption)
deriving Repr, DecidableEq

/-- core.py FedorableCore.__init__ lines 97 to 98: the per-instance task
working copies, built from a registry by calling the FedorableTask
constructor with only name, description and enabled (no flag argument). -/
def cloneTasks (reg : List (String × FedorableTask)) :
    List (String × FedorableTask) :=
  reg.map (fun p => (p.1, FedorableTask.make p.2.name p.2.description p.2.enabled))

/-- core.py FedorableCore.__init__ lines 99 to 100: same for options. -/
def cloneOptions (reg : List (String × FedorableOption)) :
    List (String × FedorableOption) :=
  reg.map (fun p => (p.1, FedorableOption.make p.2.name p.2.description p.2.enabled))

/-- core.py FedorableCore.__init__ (lines 88 to 100):
`self.script_path = script_path or DEFAULT_SCRIPT_PATH` and fresh copies
of the class-level registries. -/
def FedorableCore.init (script_path : Option String := none) : FedorableCore :=
  { script_path := pyOr script_path DEFAULT_SCRIPT_PATH
    tasks := cloneTasks TASKS
    options := cloneOptions OPTIONS }

/-- core.py FedorableCore.build_command (lines 106 to 129), with the two
Python for-loops over the ordered dicts rendered as left folds that append
one flag per matching entry. -/
def FedorableCore.build_command (core : FedorableCore)
    (use_pkexec : Bool := true) : List String :=
  let command := if use_pkexec then ["pkexec", core.script_path] else [core.script_path]
  let command := core.tasks.foldl
    (fun cmd p => if !p.2.enabled then cmd ++ [p.2.flag] else cmd) command
  let command := core.options.foldl
    (fun cmd p => if p.2.enabled then cmd ++ [p.2.flag] else cmd) command
  command

/-- The set-by-name task mutation seam used by both front ends:
`self.fedorable.tasks[key].enabled = value`, guarded in src/main.py
build_command (line 194) by `if key in self.fedorable.tasks` and raising
KeyError on a plain dict index with an absent key (cli.py indexes only
names taken from the dict itself). The raising form: on an absent key the
state is returned unchanged together with the error; on a present key the
single entry with that key has its enabled field replaced. -/
def FedorableCore.setTaskEnabled (core : FedorableCore) (name : String)
    (b : Bool) : Except String Unit × FedorableCore :=
  if core.tasks.any (fun p => p.1 = name) then
    (Except.ok (), { core with
      tasks := core.tasks.map
        (fun p => if p.1 = name then (p.1, { p.2 with enabled := b }) else p) })
  else
    (Except.error "UnknownKey", core)

/-- Same seam for options: `self.fedorable.options[key].enabled = value`
(src/main.py line 200, cli.py line 134). -/
def FedorableCore.setOptionEnabled (core : FedorableCore) (name : String)
    (b : Bool) : Except String Unit × FedorableCore :=
  if core.options.any (fun p => p.1 = name) then
    (Except.ok (), { core with
      options := core.options.map
        (fun p => if p.1 = name then (p.1, { p.2 with enabled := b }) else p) })
  else
    (Except.error "UnknownKey", core)

/-- Abstract filesystem oracle for the two checks made by core.py line
104: os.path.exists and os.access with X_OK. -/
structure FileSystem where
  pathExists : String → Bool
  accessExecute : String → Bool

/-- core.py FedorableCore.is_script_executable (lines 102 to 104):
`os.path.exists(self.script_path) and os.access(self.script_path, os.X_OK)`. -/
def FedorableCore.is_script_executable (core : FedorableCore)
    (fs : FileSystem) : Bool :=
  fs.pathExists core.script_path && fs.accessExecute core.script_path

/-- Black-box behavior of one run of the external child process: the full
text it writes on each of its two pipes and its exit code. -/
structure ChildBehavior where
  stdout : String
  stderr : String
  exitCode : Int
deriving Repr, DecidableEq

/-- Text-mode line iteration over a pipe, as in Python `for line in pipe`:
split after every newline character, keeping the terminator on each line;
a final unterminated chunk is yielded as well. `acc` holds the characters
of the current line in reverse. -/
def splitLinesKeep (acc : List Char) : List Char → List (List Char)
  | [] => if acc = [] then [] else [acc.reverse]
  | c :: rest =>
    if c = '\n' then (acc.reverse ++ ['\n']) :: splitLinesKeep [] rest
    else splitLinesKeep (c :: acc) rest

/-- The lines (terminators included) a reader obtains from a pipe whose
whole content is `content`. -/
def pipeLines (content : String) : List String :=
  (splitLinesKeep [] content.data).map (fun l => ⟨l⟩)

/-- core.py FedorableCore._read_output (lines 194 to 205): one reader
thread iterates its pipe and invokes the callback on every line with the
stream identity; its trace is the list of callback invocations it makes,
in order. -/
def read_output (content : String) (is_stderr : Bool) : List (String × Bool) :=
  (pipeLines content).map (fun line => (line, is_stderr))

/-- Nondeterministic interleaving of the two reader threads: the schedule
says, while both threads still have events, which goes next (true takes
from the first list); once one side is exhausted, or the schedule runs
out, the rest is delivered in order. -/
def interleave (sched : List Bool) (xs ys : List (String × Bool)) :
    List (String × Bool) :=
  match sched, xs, ys with
  | [], xs, ys => xs ++ ys
  | true :: s, x :: xs, ys => x :: interleave s xs ys
  | false :: s, xs, y :: ys => y :: interleave s xs ys
  | true :: s, [], ys => interleave s [] ys
  | false :: s, xs, [] => interleave s xs []

/-- Result of one blocking run with callback: the ordered callback
invocations made before return, and the return code handed back. -/
structure CallbackRun where
  events : List (String × Bool)
  returnCode : Int
deriving Repr, DecidableEq

/-- core.py FedorableCore._run_with_callback (lines 156 to 192): spawn the
child with both pipes captured, start one reader thread per pipe (stdout
tagged false, stderr tagged true), wait for the process, join both
threads, then return the code. Both threads are joined before the method
returns, so the returned trace contains every callback invocation of both
readers, merged in some schedule-dependent order; `command` is passed to
the opaque child, whose behavior is the `child` parameter. -/
def run_with_callback (command : List String) (child : ChildBehavior)
    (sched : List Bool) : CallbackRun :=
  let _ := command
  { events := interleave sched (read_output child.stdout false)
      (read_output child.stderr true)
    returnCode := child.exitCode }

/-- core.py FedorableCore.run (lines 131 to 154). The first component
lists the child processes spawned during the call, in order; the second
is the outcome: `Except.error` is the raised FileNotFoundError, and
`Except.ok` carries the callback trace (empty when no callback is given,
as subprocess.call inherits the parent streams) and the returned code. -/
def FedorableCore.run (core : FedorableCore) (fs : FileSystem)
    (use_pkexec : Bool) (hasCallback : Bool) (child : ChildBehavior)
    (sched : List Bool) :
    List (List String) × Except String (List (String × Bool) × Int) :=
  if core.is_script_executable fs then
    let command := core.build_command use_pkexec
    if hasCallback then
      let r := run_with_callback command child sched
      ([command], Except.ok (r.events, r.returnCode))
    else
      ([command], Except.ok ([], child.exitCode))
  else
    ([], Except.error ("Script not found or not executable: " ++ core.script_path))

/-- cli.py run_fedorable (lines 156 and 161): the CLI front end compiles
with `fedorable.build_command(not no_pkexec)`. -/
def cli_command (core : FedorableCore) (no_pkexec : Bool) : List String :=
  core.build_command (!no_pkexec)

/-- src/main.py FedorableMainWindow.build_command (line 203): the GUI
front end compiles with `self.fedorable.build_command(use_pkexec=True)`. -/
def gui_command (core : FedorableCore) : List String :=
  core.build_command true

/-- src/main.py _on_process_communication_finished (lines 260 to 272):
after Gio.Subprocess communicate_utf8_async completes, the whole buffered
stdout text is appended with the stdout tag when nonempty, then the whole
buffered stderr text with the stderr tag when nonempty. -/
def gui_deliver (child : ChildBehavior) : List (String × Bool) :=
  (if child.stdout ≠ "" then [(child.stdout, false)] else []) ++
  (if child.stderr ≠ "" then [(child.stderr, true)] else [])

/-- The GUI run path (src/main.py on_run_clicked lines 219 to 251 plus the
communication callback): compile through the shared core, spawn through
Gio.Subprocess with both pipes, deliver the buffered per-stream texts, and
report the exit status. -/
def gui_run (core : FedorableCore) (child : ChildBehavior) :
    List (String × Bool) × Int :=
  let _ := gui_command core
  (gui_deliver child, child.exitCode)

/-- The CLI run path (cli.py run_fedorable line 161): blocking
`fedorable.run` with the print callback, which drains both pipes line by
line through FedorableCore._run_with_callback. -/
def cli_run (core : FedorableCore) (no_pkexec : Bool) (child : ChildBehavior)
    (sched : List Bool) : List (String × Bool) × Int :=
  let r := run_with_callback (cli_command core no_pkexec) child sched
  (r.events, r.returnCode)

/-!
Reference model for clone independence. Python objects live on a heap and
instance attributes alias heap cells; to state that the per-instance
copies made by FedorableCore.__init__ are fresh objects, the heap is made
explicit: a heap is a list of objects and an address is an index, with
allocation appending at the end. Attribute assignment
`obj.enabled = value` is an update of the addressed cell.
-/

/-- Allocate a fresh clone of every registry entry onto the heap, in
registry order, returning the named addresses of the new objects with the
grown heap (core.py lines 97 to 100, one constructor call per entry). -/
def allocEntries {α : Type} (clone : α → α) :
    List (String × α) → List α → List (String × Nat) × List α
  | [], heap => ([], heap)
  | (n, t) :: rest, heap =>
    let r := allocEntries clone rest (heap ++ [clone t])
    ((n, heap.length) :: r.1, r.2)

/-- The clone built for one task template: the constructor receives only
name, description and enabled (core.py line 97). -/
def cloneTaskObj (t : FedorableTask) : FedorableTask :=
  FedorableTask.make t.name t.description t.enabled

/-- The clone built for one option template (core.py line 99). -/
def cloneOptionObj (o : FedorableOption) : FedorableOption :=
  FedorableOption.make o.name o.description o.enabled

/-- The two object heaps of the reference model. -/
structure Heaps where
  taskHeap : List FedorableTask
  optionHeap : List FedorableOption
deriving Repr, DecidableEq

/-- A FedorableCore instance in the reference model: its attribute dicts
hold addresses of task and option objects. -/
structure FedorableCoreRef where
  script_path : String
  taskAddrs : List (String × Nat)
  optionAddrs : List (String × Nat)
deriving Repr, DecidableEq

/-- core.py FedorableCore.__init__ in the reference model: allocate fresh
working copies of every class-level registry entry. -/
def FedorableCoreRef.init (script_path : Option String) (h : Heaps) :
    FedorableCoreRef × Heaps :=
  let rt := allocEntries cloneTaskObj TASKS h.taskHeap
  let ro := allocEntries cloneOptionObj OPTIONS h.optionHeap
  ({ script_path := pyOr script_path DEFAULT_SCRIPT_PATH
     taskAddrs := rt.1
     optionAddrs := ro.1 },
   { taskHeap := rt.2, optionHeap := ro.2 })

/-- Heap cell update at an address; out-of-range addresses leave the heap
unchanged. -/
def setEnabledAt {α : Type} (setE : α → Bool → α) (h : List α) (a : Nat)
    (b : Bool) : List α :=
  match h[a]? with
  | some t => h.set a (setE t b)
  | none => h

/-- Python attribute assignment `self.tasks[name].enabled = b` on an
instance of the reference model: look up the address bound to the name
and update that cell. -/
def FedorableCoreRef.setTaskEnabled (c : FedorableCoreRef) (h : Heaps)
    (name : String) (b : Bool) : Heaps :=
  match c.taskAddrs.find? (fun p => p.1 = name) with
  | some p => { h with
      taskHeap := setEnabledAt (fun t b => { t with enabled := b }) h.taskHeap p.2 b }
  | none => h

/-- Python attribute assignment `self.options[name].enabled = b` on an
instance of the reference model. -/
def FedorableCoreRef.setOptionEnabled (c : FedorableCoreRef) (h : Heaps)
    (name : String) (b : Bool) : Heaps :=
  match c.optionAddrs.find? (fun p => p.1 = name) with
  | some p => { h with
      optionHeap := setEnabledAt (fun o b => { o with enabled := b }) h.optionHeap p.2 b }
  | none => h

/-- What an instance observes of its tasks: each name with the object its
address refers to. -/
def FedorableCoreRef.taskView (c : FedorableCoreRef) (h : Heaps) :
    List (String × Option FedorableTask) :=
  c.taskAddrs.map (fun p => (p.1, h.taskHeap[p.2]?))

/-- What an instance observes of its options. -/
def FedorableCoreRef.optionView (c : FedorableCoreRef) (h : Heaps) :
    List (String × Option FedorableOption) :=
  c.optionAddrs.map (fun p => (p.1, h.optionHeap[p.2]?))

/-- The disable flag tokens of the task registry, in insertion order. -/
def registryTaskFlags : List String := TASKS.map (fun p => p.2.flag)

/-- The enable flag tokens of the option registry, in insertion order. -/
def registryOptionFlags : List String := OPTIONS.map (fun p => p.2.flag)

/-! ## Helper lemmas -/

/-- A fold that appends one token per entry passing the test equals the
accumulator followed by the tokens of the passing entries, in order. -/
theorem foldl_append_if {α : Type} (q : α → Bool) (g : α → String) :
    ∀ (l : List α) (acc : List String),
      l.foldl (fun cmd p => if q p then cmd ++ [g p] else cmd) acc
        = acc ++ (l.filter q).map g := by
  intro l
  induction l with
  | nil => intro acc; simp
  | cons x xs ih =>
    intro acc
    simp only [List.foldl_cons, List.filter_cons]
    by_cases hx : q x
    · simp [hx, ih]
    · simp [hx, ih]

/-- Closed form of FedorableCore.build_command: base command, then one
disable flag per disabled task in order, then one enable flag per enabled
option in order. -/
theorem build_command_spec (core : FedorableCore) (use_pkexec : Bool) :
    core.build_command use_pkexec =
      (if use_pkexec then ["pkexec", core.script_path] else [core.script_path])
      ++ (core.tasks.filter (fun p => !p.2.enabled)).map (fun p => p.2.flag)
      ++ (core.options.filter (fun p => p.2.enabled)).map (fun p => p.2.flag) := by
  simp only [FedorableCore.build_command, foldl_append_if, List.append_assoc]

/-! ## Claim theorems -/

/-- C1: For every Configuration and every boolean useEscalation,
build_command returns exactly the token sequence: the escalation wrapper
token (pkexec) first when useEscalation, otherwise the script path first;
then the script path; then the disable flag of each task whose enabled is
false, in registry insertion order; then the enable flag of each option
whose enabled is true, in registry insertion order. Enabled tasks and
disabled options contribute no token. -/
theorem build_command_token_sequence (core : FedorableCore) (useEscalation : Bool) :
    core.build_command useEscalation =
      (if useEscalation then ["pkexec"] else []) ++ [core.script_path]
      ++ (core.tasks.filter (fun p => !p.2.enabled)).map (fun p => p.2.flag)
      ++ (core.options.filter (fun p => p.2.enabled)).map (fun p => p.2.flag) := by
  rw [build_command_spec]
  cases useEscalation <;> simp

/-- Sanity check of the embedding on a concrete scenario: disabling the
clean_dnf task and enabling the quiet option compiles to the base command
followed by exactly those two flags. -/
theorem build_command_concrete_check :
    ((((FedorableCore.init none).setTaskEnabled "clean_dnf" false).2.setOptionEnabled
        "quiet" true).2).build_command true
      = ["pkexec", DEFAULT_SCRIPT_PATH, "--no-clean-dnf", "--quiet"] := by decide

/-- Splitting keeps every character: flattening the lines gives back the
pending characters followed by the remaining input. -/
theorem splitLinesKeep_flatten :
    ∀ (cs acc : List Char), (splitLinesKeep acc cs).flatten = acc.reverse ++ cs := by
  intro cs
  induction cs with
  | nil =>
    intro acc
    by_cases h : acc = ([] : List Char) <;> simp [splitLinesKeep, h]
  | cons c rest ih =>
    intro acc
    by_cases h : c = '\n'
    · simp [splitLinesKeep, h, ih]
    · simp [splitLinesKeep, h, ih]

/-- Joining the lines read from a pipe restores the full pipe content:
no character, terminators included, is lost by line iteration. -/
theorem join_pipeLines (s : String) : String.join (pipeLines s) = s := by
  rw [String.join_eq]
  show String.mk _ = s
  rw [pipeLines, List.map_map]
  have hmap : (String.data ∘ fun l : List Char => String.mk l) = id := rfl
  rw [hmap, List.map_id, splitLinesKeep_flatten]
  rfl

/-- Filtering an interleaving by a test that holds on the whole left list
and fails on the whole right list recovers exactly the left list. -/
theorem interleave_filter_left (q : (String × Bool) → Bool) :
    ∀ (sched : List Bool) (xs ys : List (String × Bool)),
      (∀ x ∈ xs, q x = true) → (∀ y ∈ ys, q y = false) →
      (interleave sched xs ys).filter q = xs := by
  intro sched
  induction sched with
  | nil =>
    intro xs ys hx hy
    rw [interleave, List.filter_append, List.filter_eq_self.mpr hx,
      List.filter_eq_nil_iff.mpr (by intro a ha; simp [hy a ha]), List.append_nil]
  | cons b s ih =>
    intro xs ys hx hy
    cases b with
    | true =>
      cases xs with
      | nil =>
        rw [interleave, ih [] ys (by intro x hx; cases hx) hy]
      | cons x xs =>
        rw [interleave, List.filter_cons]
        have hq : q x = true := hx x (by simp)
        simp only [hq, if_pos]
        rw [ih xs ys (fun a ha => hx a (by simp [ha])) hy]
    | false =>
      cases ys with
      | nil =>
        rw [interleave, ih xs [] hx (by intro y hy; cases hy)]
      | cons y ys =>
        rw [interleave, List.filter_cons]
        have hq : q y = false := hy y (by simp)
        simp only [hq, Bool.false_eq_true, if_neg, not_false_eq_true]
        rw [ih xs ys hx (fun a ha => hy a (by simp [ha]))]

/-- Filtering an interleaving by a test that fails on the whole left list
and holds on the whole right list recovers exactly the right list. -/
theorem interleave_filter_right (q : (String × Bool) → Bool) :
    ∀ (sched : List Bool) (xs ys : List (String × Bool)),
      (∀ x ∈ xs, q x = false) → (∀ y ∈ ys, q y = true) →
      (interleave sched xs ys).filter q = ys := by
  intro sched
  induction sched with
  | nil =>
    intro xs ys hx hy
    rw [interleave, List.filter_append, List.filter_eq_self.mpr hy,
      List.filter_eq_nil_iff.mpr (by intro a ha; simp [hx a ha]), List.nil_append]
  | cons b s ih =>
    intro xs ys hx hy
    cases b with
    | true =>
      cases xs with
      | nil =>
        rw [interleave, ih [] ys (by intro x hx; cases hx) hy]
      | cons x xs =>
        rw [interleave, List.filter_cons]
        have hq : q x = false := hx x (by simp)
        simp only [hq, Bool.false_eq_true, if_neg, not_false_eq_true]
        rw [ih xs ys (fun a ha => hx a (by simp [ha])) hy]
    | false =>
      cases ys with
      | nil =>
        rw [interleave, ih xs [] hx (by intro y hy; cases hy)]
      | cons y ys =>
        rw [interleave, List.filter_cons]
        have hq : q y = true := hy y (by simp)
        simp only [hq, if_pos]
        rw [ih xs ys hx (fun a ha => hy a (by simp [ha]))]

/-- Every event a reader produces carries the tag of its own stream. -/
theorem read_output_tag (c : String) (b : Bool) :
    ∀ x ∈ read_output c b, x.2 = b := by
  intro x hx
  rw [read_output] at hx
  obtain ⟨l, _, rfl⟩ := List.mem_map.mp hx
  rfl

/-- The stdout-tagged part of the callback trace is exactly the stdout
reader trace. -/
theorem events_filter_out (command : List String) (child : ChildBehavior)
    (sched : List Bool) :
    (run_with_callback command child sched).events.filter (fun e => !e.2)
      = read_output child.stdout false := by
  apply interleave_filter_left
  · intro x hx; rw [read_output_tag _ _ x hx]; rfl
  · intro y hy; rw [read_output_tag _ _ y hy]; rfl

/-- The stderr-tagged part of the callback trace is exactly the stderr
reader trace. -/
theorem events_filter_err (command : List String) (child : ChildBehavior)
    (sched : List Bool) :
    (run_with_callback command child sched).events.filter (fun e => e.2)
      = read_output child.stderr true := by
  apply interleave_filter_right
  · intro x hx; exact read_output_tag _ _ x hx
  · intro y hy; exact read_output_tag _ _ y hy

/-- Dropping the tags of a reader trace gives back the pipe lines. -/
theorem read_output_map_fst (c : String) (b : Bool) :
    (read_output c b).map Prod.fst = pipeLines c := by
  rw [read_output, List.map_map]
  exact List.map_id _

/-- C2: In blocking mode with a callback, the run returns only after the
child has terminated and both reader threads have drained their pipes: for
every child behavior and every thread interleaving, the callback trace
returned by the run contains, tagged false, exactly the stdout lines and,
tagged true, exactly the stderr lines (each line keeping its terminator,
so the per-stream concatenation restores the full pipe content with
nothing truncated), and the returned code is the exit code of the
terminated child. -/
theorem run_with_callback_drains_both_streams (command : List String)
    (child : ChildBehavior) (sched : List Bool) :
    ((run_with_callback command child sched).events.filter (fun e => !e.2)).map Prod.fst
        = pipeLines child.stdout
    ∧ ((run_with_callback command child sched).events.filter (fun e => e.2)).map Prod.fst
        = pipeLines child.stderr
    ∧ String.join (((run_with_callback command child sched).events.filter
        (fun e => !e.2)).map Prod.fst) = child.stdout
    ∧ String.join (((run_with_callback command child sched).events.filter
        (fun e => e.2)).map Prod.fst) = child.stderr
    ∧ (run_with_callback command child sched).returnCode = child.exitCode := by
  refine ⟨?_, ?_, ?_, ?_, rfl⟩
  · rw [events_filter_out, read_output_map_fst]
  · rw [events_filter_err, read_output_map_fst]
  · rw [events_filter_out, read_output_map_fst, join_pipeLines]
  · rw [events_filter_err, read_output_map_fst, join_pipeLines]

/-- Joining one string is that string. -/
theorem join_singleton (s : String) : String.join [s] = s := by
  rw [String.join_eq]
  show String.mk (s.data ++ []) = s
  rw [List.append_nil]

/-- Joining no strings is the empty string. -/
theorem join_nil : String.join [] = "" := rfl

/-- C3 counterexample: the two front ends do not share one stream-draining
logic delivering identical stream-tagged traces. For a child writing two
stdout lines, the blocking CLI path delivers two tagged line events while
the GUI path delivers one buffered event, so the delivered traces differ
on the same configuration and the same child behavior. -/
theorem cli_gui_trace_divergence :
    ¬ ((cli_run (FedorableCore.init none) false
          { stdout := "A\nB\n", stderr := "", exitCode := 0 } []).1
        = (gui_run (FedorableCore.init none)
          { stdout := "A\nB\n", stderr := "", exitCode := 0 }).1) := by decide

/-- C3 (amended): the two front ends share the one compile step (both
invoke FedorableCore.build_command, and with its default escalation the
CLI compiles the very token sequence the GUI compiles), and although the
GUI drains the streams through a separate buffered path rather than the
core reader threads, for the same configuration and the same child
behavior both deliver the same per-stream output content, tagged with the
same stream identities, and report the same exit status, losing no
output. -/
theorem cli_gui_shared_compile_and_agreement (core : FedorableCore)
    (child : ChildBehavior) (sched : List Bool) :
    gui_command core = cli_command core false
    ∧ String.join (((cli_run core false child sched).1.filter (fun e => !e.2)).map Prod.fst)
        = child.stdout
    ∧ String.join (((cli_run core false child sched).1.filter (fun e => e.2)).map Prod.fst)
        = child.stderr
    ∧ String.join (((gui_run core child).1.filter (fun e => !e.2)).map Prod.fst)
        = child.stdout
    ∧ String.join (((gui_run core child).1.filter (fun e => e.2)).map Prod.fst)
        = child.stderr
    ∧ (cli_run core false child sched).2 = child.exitCode
    ∧ (gui_run core child).2 = child.exitCode := by
  refine ⟨rfl, ?_, ?_, ?_, ?_, rfl, rfl⟩
  · show String.join (((run_with_callback (cli_command core false) child sched).events.filter
        (fun e => !e.2)).map Prod.fst) = child.stdout
    rw [events_filter_out, read_output_map_fst, join_pipeLines]
  · show String.join (((run_with_callback (cli_command core false) child sched).events.filter
        (fun e => e.2)).map Prod.fst) = child.stderr
    rw [events_filter_err, read_output_map_fst, join_pipeLines]
  · show String.join (((gui_deliver child).filter (fun e => !e.2)).map Prod.fst)
        = child.stdout
    rw [gui_deliver, List.filter_append]
    by_cases ho : child.stdout = "" <;> by_cases he : child.stderr = "" <;>
      simp [ho, he, join_singleton, join_nil]
  · show String.join (((gui_deliver child).filter (fun e => e.2)).map Prod.fst)
        = child.stderr
    rw [gui_deliver, List.filter_append]
    by_cases ho : child.stdout = "" <;> by_cases he : child.stderr = "" <;>
      simp [ho, he, join_singleton, join_nil]

/-- In a list of named entries whose flag tokens are pairwise distinct,
the flag tokens of the entries passing a test contain the flag of a member
entry exactly once when that entry passes the test and never when it
fails. -/
theorem count_flag_filter {α : Type} (fl : α → String) (q : α → Bool) :
    ∀ (l : List (String × α)) (t : α),
      (l.map (fun p => fl p.2)).Nodup → t ∈ l.map (fun p => p.2) →
      ((l.filter (fun p => q p.2)).map (fun p => fl p.2)).count (fl t)
        = if q t then 1 else 0 := by
  intro l
  induction l with
  | nil => intro t _ hmem; cases hmem
  | cons x xs ih =>
    intro t hnd hmem
    rw [List.map_cons, List.nodup_cons] at hnd
    obtain ⟨hx_notin, hnd_xs⟩ := hnd
    have hsub : ((xs.filter (fun p => q p.2)).map (fun p => fl p.2))
        ⊆ xs.map (fun p => fl p.2) :=
      List.map_subset _ (fun a ha => List.mem_of_mem_filter ha)
    rw [List.map_cons] at hmem
    rw [List.filter_cons]
    rcases List.mem_cons.mp hmem with heq | htail
    · have hzero : ((xs.filter (fun p => q p.2)).map (fun p => fl p.2)).count (fl t)
          = 0 := by
        apply List.count_eq_zero.mpr
        intro hin
        exact hx_notin (heq ▸ hsub hin)
      subst heq
      by_cases hq : q x.2
      · rw [if_pos hq, List.map_cons, List.count_cons_self, hzero, if_pos hq]
      · rw [if_neg hq, hzero, if_neg hq]
    · have hft : fl t ∈ xs.map (fun p => fl p.2) := by
        obtain ⟨p, hp, hpt⟩ := List.mem_map.mp htail
        exact List.mem_map.mpr ⟨p, hp, by rw [hpt]⟩
      have hne : fl x.2 ≠ fl t := fun h => hx_notin (h ▸ hft)
      by_cases hq : q x.2
      · rw [if_pos hq, List.map_cons, List.count_cons_of_ne (fun h => hne h.symm),
          ih t hnd_xs htail]
      · rw [if_neg hq, ih t hnd_xs htail]

/-- C4 counterexample: the claim quantifies over every Configuration, and
a Configuration whose script path is itself one of the flag tokens defeats
it: with script path set to the update disable flag, the update task is
enabled and yet its disable flag occurs in the compiled command (as the
script path token). -/
theorem flag_presence_counterexample :
    ∃ p ∈ (FedorableCore.init (some "--no-update")).tasks,
      p.2.enabled = true
      ∧ p.2.flag ∈ (FedorableCore.init (some "--no-update")).build_command true := by
  decide

/-- C4 (amended): for every Configuration carrying the registry-derived
flag tokens and whose script path is not itself one of those flag tokens,
and for every task t: if t.enabled is true the compiled command does not
contain the disable flag of t, and if t.enabled is false that flag is
present exactly once; likewise every option o has its enable flag absent
when o.enabled is false and present exactly once when true. -/
theorem flag_presence_counts (core : FedorableCore) (u : Bool)
    (hT : core.tasks.map (fun p => p.2.flag) = registryTaskFlags)
    (hO : core.options.map (fun p => p.2.flag) = registryOptionFlags)
    (hsp1 : core.script_path ∉ registryTaskFlags)
    (hsp2 : core.script_path ∉ registryOptionFlags) :
    (∀ p ∈ core.tasks, (core.build_command u).count p.2.flag
        = if p.2.enabled then 0 else 1)
    ∧ (∀ p ∈ core.options, (core.build_command u).count p.2.flag
        = if p.2.enabled then 1 else 0) := by
  have hpkT : ("pkexec" : String) ∉ registryTaskFlags := by decide
  have hpkO : ("pkexec" : String) ∉ registryOptionFlags := by decide
  have hndT : registryTaskFlags.Nodup := by decide
  have hndO : registryOptionFlags.Nodup := by decide
  have hdisjTO : ∀ x ∈ registryTaskFlags, x ∉ registryOptionFlags := by decide
  have hdisjOT : ∀ x ∈ registryOptionFlags, x ∉ registryTaskFlags := by decide
  have hbase : ∀ f : String, f ≠ "pkexec" → f ≠ core.script_path →
      ((if u then ["pkexec", core.script_path] else [core.script_path]).count f) = 0 := by
    intro f h1 h2
    apply List.count_eq_zero.mpr
    cases u <;> simp [h1, h2]
  constructor
  · intro p hp
    have hfT : p.2.flag ∈ registryTaskFlags := by
      rw [← hT]
      exact List.mem_map.mpr ⟨p, hp, rfl⟩
    have hstep : ((core.options.filter (fun p => p.2.enabled)).map
        (fun p => p.2.flag)).count p.2.flag = 0 := by
      apply List.count_eq_zero.mpr
      intro hin
      have : p.2.flag ∈ registryOptionFlags := by
        rw [← hO]
        exact List.map_subset _ (fun a ha => List.mem_of_mem_filter ha) hin
      exact hdisjTO _ hfT this
    rw [build_command_spec, List.count_append, List.count_append]
    rw [count_flag_filter FedorableTask.flag (fun t => !t.enabled) core.tasks p.2
        (by rw [hT]; exact hndT) (List.mem_map.mpr ⟨p, hp, rfl⟩)]
    rw [hbase p.2.flag (fun h => hpkT (h ▸ hfT)) (fun h => hsp1 (h ▸ hfT)), hstep]
    cases hen : p.2.enabled <;> simp [hen]
  · intro p hp
    have hfO : p.2.flag ∈ registryOptionFlags := by
      rw [← hO]
      exact List.mem_map.mpr ⟨p, hp, rfl⟩
    have hstep : ((core.tasks.filter (fun p => !p.2.enabled)).map
        (fun p => p.2.flag)).count p.2.flag = 0 := by
      apply List.count_eq_zero.mpr
      intro hin
      have : p.2.flag ∈ registryTaskFlags := by
        rw [← hT]
        exact List.map_subset _ (fun a ha => List.mem_of_mem_filter ha) hin
      exact hdisjOT _ hfO this
    rw [build_command_spec, List.count_append, List.count_append]
    rw [count_flag_filter FedorableOption.flag (fun o => o.enabled) core.options p.2
        (by rw [hO]; exact hndO) (List.mem_map.mpr ⟨p, hp, rfl⟩)]
    rw [hbase p.2.flag (fun h => hpkO (h ▸ hfO)) (fun h => hsp2 (h ▸ hfO)), hstep]
    cases hen : p.2.enabled <;> simp [hen]

/-- C4 witness: the amended count statement evaluated on a concrete
configuration with the clean_dnf task disabled. -/
theorem flag_presence_counts_witness :
    ((((FedorableCore.init none).setTaskEnabled "clean_dnf" false).2).build_command true).count
        (("clean_dnf", FedorableTask.make "clean_dnf" "Clean DNF Cache" false).2.flag)
      = if ("clean_dnf", FedorableTask.make "clean_dnf" "Clean DNF Cache" false).2.enabled
        then 0 else 1 :=
  (flag_presence_counts (((FedorableCore.init none).setTaskEnabled "clean_dnf" false).2)
      true (by decide) (by decide) (by decide) (by decide)).1
    ("clean_dnf", FedorableTask.make "clean_dnf" "Clean DNF Cache" false) (by decide)

/-- C5: for every core whose script path does not exist or lacks the
executable permission bit, run raises FileNotFoundError synchronously:
the spawn trace is empty (no child process is ever launched) and the
outcome is the error with the script path in its message. The
configuration is an immutable input of run, which never writes to it. -/
theorem run_preflight_failure (core : FedorableCore) (fs : FileSystem)
    (u cb : Bool) (child : ChildBehavior) (sched : List Bool)
    (h : core.is_script_executable fs = false) :
    core.run fs u cb child sched
      = ([], Except.error ("Script not found or not executable: "
          ++ core.script_path)) := by
  simp [FedorableCore.run, h]

/-- C5 witness: a filesystem on which nothing exists makes the default
core fail its pre-flight check without spawning. -/
theorem run_preflight_failure_witness :
    (FedorableCore.init none).run ⟨fun _ => false, fun _ => false⟩ true true
        ⟨"", "", 0⟩ []
      = ([], Except.error ("Script not found or not executable: "
          ++ DEFAULT_SCRIPT_PATH)) :=
  run_preflight_failure _ _ _ _ _ _ (by decide)

/-- C6: when the pre-flight check passes, run reports the exit code of the
terminated child as a normal completed result, never as an engine error:
the child is spawned once and the outcome is Except.ok carrying that exit
code, whatever nonzero value it is; classifying it is left to the
caller. -/
theorem run_reports_child_exit_code (core : FedorableCore) (fs : FileSystem)
    (u cb : Bool) (child : ChildBehavior) (sched : List Bool)
    (h : core.is_script_executable fs = true) :
    ∃ evs, core.run fs u cb child sched
      = ([core.build_command u], Except.ok (evs, child.exitCode)) := by
  cases cb with
  | false => exact ⟨[], by simp [FedorableCore.run, h]⟩
  | true =>
    exact ⟨(run_with_callback (core.build_command u) child sched).events,
      by simp [FedorableCore.run, h]; rfl⟩

/-- C6 witness: a child exiting with code 7 yields a completed result
carrying exit code 7, with no error raised by the runner. -/
theorem run_reports_child_exit_code_witness :
    ∃ evs, (FedorableCore.init none).run ⟨fun _ => true, fun _ => true⟩ true true
        ⟨"done\n", "", 7⟩ []
      = ([(FedorableCore.init none).build_command true], Except.ok (evs, 7)) :=
  run_reports_child_exit_code _ _ _ _ _ _ (by decide)

/-- C7: setting a task or option enabled state by name fails with
UnknownKey when the name is absent from the registry-derived mapping, and
then the state comes back exactly as it was (no key changes); when the
name is present the operation succeeds and replaces only the enabled
field of the entry at that key, keeping every other entry, the key
sequence, the script path and the entire other mapping untouched. -/
theorem set_enabled_by_name_spec (core : FedorableCore) (name : String) (b : Bool) :
    (core.tasks.any (fun p => p.1 = name) = false →
      core.setTaskEnabled name b = (Except.error "UnknownKey", core))
    ∧ (core.tasks.any (fun p => p.1 = name) = true →
      (core.setTaskEnabled name b).1 = Except.ok ()
      ∧ (core.setTaskEnabled name b).2.script_path = core.script_path
      ∧ (core.setTaskEnabled name b).2.options = core.options
      ∧ (core.setTaskEnabled name b).2.tasks.map (fun p => p.1)
          = core.tasks.map (fun p => p.1)
      ∧ ∀ i : Nat, ∀ k t, core.tasks[i]? = some (k, t) →
          ((core.setTaskEnabled name b).2.tasks)[i]?
            = some (k, if k = name then { t with enabled := b } else t))
    ∧ (core.options.any (fun p => p.1 = name) = false →
      core.setOptionEnabled name b = (Except.error "UnknownKey", core))
    ∧ (core.options.any (fun p => p.1 = name) = true →
      (core.setOptionEnabled name b).1 = Except.ok ()
      ∧ (core.setOptionEnabled name b).2.script_path = core.script_path
      ∧ (core.setOptionEnabled name b).2.tasks = core.tasks
      ∧ (core.setOptionEnabled name b).2.options.map (fun p => p.1)
          = core.options.map (fun p => p.1)
      ∧ ∀ i : Nat, ∀ k o, core.options[i]? = some (k, o) →
          ((core.setOptionEnabled name b).2.options)[i]?
            = some (k, if k = name then { o with enabled := b } else o)) := by
  refine ⟨?_, ?_, ?_, ?_⟩
  · intro h
    simp [FedorableCore.setTaskEnabled, h]
  · intro h
    refine ⟨by simp [FedorableCore.setTaskEnabled, h],
      by simp [FedorableCore.setTaskEnabled, h],
      by simp [FedorableCore.setTaskEnabled, h], ?_, ?_⟩
    · simp only [FedorableCore.setTaskEnabled, h, if_pos, List.map_map]
      apply List.map_congr_left
      intro p _
      by_cases hp : p.1 = name <;> simp [hp]
    · intro i k t hi
      simp only [FedorableCore.setTaskEnabled, h, if_pos]
      rw [List.getElem?_map, hi]
      by_cases hk : k = name <;> simp [hk]
  · intro h
    simp [FedorableCore.setOptionEnabled, h]
  · intro h
    refine ⟨by simp [FedorableCore.setOptionEnabled, h],
      by simp [FedorableCore.setOptionEnabled, h],
      by simp [FedorableCore.setOptionEnabled, h], ?_, ?_⟩
    · simp only [FedorableCore.setOptionEnabled, h, if_pos, List.map_map]
      apply List.map_congr_left
      intro p _
      by_cases hp : p.1 = name <;> simp [hp]
    · intro i k o hi
      simp only [FedorableCore.setOptionEnabled, h, if_pos]
      rw [List.getElem?_map, hi]
      by_cases hk : k = name <;> simp [hk]

/-- C7 witness: an absent key is rejected with UnknownKey and the state
comes back unchanged. -/
theorem set_enabled_by_name_witness :
    (FedorableCore.init none).setTaskEnabled "bogus_key" true
      = (Except.error "UnknownKey", FedorableCore.init none) :=
  (set_enabled_by_name_spec (FedorableCore.init none) "bogus_key" true).1 (by decide)

/-- Task mutation never touches the option mapping. -/
theorem setTaskEnabled_options_eq (core : FedorableCore) (n : String) (b : Bool) :
    (core.setTaskEnabled n b).2.options = core.options := by
  by_cases h : core.tasks.any (fun p => p.1 = n) <;>
    simp [FedorableCore.setTaskEnabled, h]

/-- Option mutation never touches the task mapping. -/
theorem setOptionEnabled_tasks_eq (core : FedorableCore) (n : String) (b : Bool) :
    (core.setOptionEnabled n b).2.tasks = core.tasks := by
  by_cases h : core.options.any (fun p => p.1 = n) <;>
    simp [FedorableCore.setOptionEnabled, h]

/-- Task mutation preserves every task flag token. -/
theorem setTaskEnabled_flags_eq (core : FedorableCore) (n : String) (b : Bool) :
    (core.setTaskEnabled n b).2.tasks.map (fun p => p.2.flag)
      = core.tasks.map (fun p => p.2.flag) := by
  by_cases h : core.tasks.any (fun p => p.1 = n)
  · simp only [FedorableCore.setTaskEnabled, h, if_pos, List.map_map]
    apply List.map_congr_left
    intro p _
    by_cases hp : p.1 = n <;> simp [hp]
  · simp [FedorableCore.setTaskEnabled, h]

/-- Option mutation preserves every option flag token. -/
theorem setOptionEnabled_flags_eq (core : FedorableCore) (n : String) (b : Bool) :
    (core.setOptionEnabled n b).2.options.map (fun p => p.2.flag)
      = core.options.map (fun p => p.2.flag) := by
  by_cases h : core.options.any (fun p => p.1 = n)
  · simp only [FedorableCore.setOptionEnabled, h, if_pos, List.map_map]
    apply List.map_congr_left
    intro p _
    by_cases hp : p.1 = n <;> simp [hp]
  · simp [FedorableCore.setOptionEnabled, h]

/-- Every entry of a task clone list carries the flag derived from its own
name. -/
theorem cloneTasks_flag (reg : List (String × FedorableTask)) :
    ∀ p ∈ cloneTasks reg, p.2.flag = "--no-" ++ hyphenate p.2.name := by
  intro p hp
  obtain ⟨q, _, rfl⟩ := List.mem_map.mp hp
  rfl

/-- Every entry of an option clone list carries the flag derived from its
own name. -/
theorem cloneOptions_flag (reg : List (String × FedorableOption)) :
    ∀ p ∈ cloneOptions reg, p.2.flag = "--" ++ hyphenate p.2.name := by
  intro p hp
  obtain ⟨q, _, rfl⟩ := List.mem_map.mp hp
  rfl

/-- C9: a Task constructed without an explicit flag override has its flag
equal to the two-hyphen no prefix followed by the name with every
underscore replaced by a hyphen, an Option constructed without an
override has the two-hyphen prefix followed by the hyphenated name, and
the flag is never mutated afterwards: both mutation operations preserve
every flag token of both mappings. -/
theorem constructor_flag_derivation :
    (∀ name description : String, ∀ enabled : Bool,
      (FedorableTask.make name description enabled).flag
          = "--no-" ++ hyphenate name
      ∧ (FedorableOption.make name description enabled).flag
          = "--" ++ hyphenate name)
    ∧ (∀ (core : FedorableCore) (n : String) (b : Bool),
      ((core.setTaskEnabled n b).2.tasks.map (fun p => p.2.flag)
          = core.tasks.map (fun p => p.2.flag))
      ∧ ((core.setTaskEnabled n b).2.options = core.options)
      ∧ ((core.setOptionEnabled n b).2.tasks = core.tasks)
      ∧ ((core.setOptionEnabled n b).2.options.map (fun p => p.2.flag)
          = core.options.map (fun p => p.2.flag))) := by
  refine ⟨fun name description enabled => ⟨rfl, rfl⟩, fun core n b => ?_⟩
  exact ⟨setTaskEnabled_flags_eq core n b, setTaskEnabled_options_eq core n b,
    setOptionEnabled_tasks_eq core n b, setOptionEnabled_flags_eq core n b⟩

/-- C10: in every FedorableCore instance each working-copy task flag is
the name-derived disable form and each working-copy option flag is the
name-derived enable form, regardless of any flag stored on the registry
template: the copy constructor passes only name, description and enabled,
a falsy override such as the empty string is likewise replaced by the
derived flag, and no mutation operation changes any flag afterwards. -/
theorem working_copy_flags_derived :
    (∀ reg : List (String × FedorableTask), ∀ p ∈ cloneTasks reg,
      p.2.flag = "--no-" ++ hyphenate p.2.name)
    ∧ (∀ reg : List (String × FedorableOption), ∀ p ∈ cloneOptions reg,
      p.2.flag = "--" ++ hyphenate p.2.name)
    ∧ (∀ n d : String, ∀ e : Bool,
      (FedorableTask.make n d e (some "")).flag = "--no-" ++ hyphenate n
      ∧ (FedorableOption.make n d e (some "")).flag = "--" ++ hyphenate n)
    ∧ (∀ sp : Option String, ∀ p ∈ (FedorableCore.init sp).tasks,
      p.2.flag = "--no-" ++ hyphenate p.2.name)
    ∧ (∀ sp : Option String, ∀ p ∈ (FedorableCore.init sp).options,
      p.2.flag = "--" ++ hyphenate p.2.name)
    ∧ (∀ (core : FedorableCore) (n : String) (b : Bool),
      ((core.setTaskEnabled n b).2.tasks.map (fun p => p.2.flag)
          = core.tasks.map (fun p => p.2.flag))
      ∧ ((core.setOptionEnabled n b).2.options.map (fun p => p.2.flag)
          = core.options.map (fun p => p.2.flag))) := by
  refine ⟨cloneTasks_flag, cloneOptions_flag,
    fun n d e => ⟨by simp [FedorableTask.make, pyOr],
      by simp [FedorableOption.make, pyOr]⟩,
    fun sp p hp => cloneTasks_flag TASKS p hp,
    fun sp p hp => cloneOptions_flag OPTIONS p hp,
    fun core n b => ⟨setTaskEnabled_flags_eq core n b,
      setOptionEnabled_flags_eq core n b⟩⟩

/-- C10 witness: a registry template carrying an explicit flag override is
cloned into a working copy whose flag is the name-derived form. -/
theorem working_copy_flags_derived_witness :
    ("k", FedorableTask.make "a_b" "d" true).2.flag
      = "--no-" ++ hyphenate ("k", FedorableTask.make "a_b" "d" true).2.name :=
  working_copy_flags_derived.1
    [("k", FedorableTask.make "a_b" "d" true (some "OVERRIDE"))]
    ("k", FedorableTask.make "a_b" "d" true) (by decide)

/-- Allocation only appends: the heap after allocating a registry extends
the heap it started from. -/
theorem allocEntries_heap_extend {α : Type} (clone : α → α) :
    ∀ (reg : List (String × α)) (h : List α),
      ∃ ext, (allocEntries clone reg h).2 = h ++ ext := by
  intro reg
  induction reg with
  | nil => intro h; exact ⟨[], by simp [allocEntries]⟩
  | cons x rest ih =>
    intro h
    obtain ⟨n, t⟩ := x
    obtain ⟨ext, hext⟩ := ih (h ++ [clone t])
    refine ⟨[clone t] ++ ext, ?_⟩
    simp only [allocEntries, hext, List.append_assoc]

/-- Allocation never shrinks the heap. -/
theorem allocEntries_length_le {α : Type} (clone : α → α)
    (reg : List (String × α)) (h : List α) :
    h.length ≤ (allocEntries clone reg h).2.length := by
  obtain ⟨ext, hext⟩ := allocEntries_heap_extend clone reg h
  simp [hext]

/-- Every address handed out by an allocation is fresh: at or above the
old heap length and below the new one. -/
theorem allocEntries_addr_bounds {α : Type} (clone : α → α) :
    ∀ (reg : List (String × α)) (h : List α),
      ∀ p ∈ (allocEntries clone reg h).1,
        h.length ≤ p.2 ∧ p.2 < (allocEntries clone reg h).2.length := by
  intro reg
  induction reg with
  | nil => intro h p hp; simp [allocEntries] at hp
  | cons x rest ih =>
    intro h p hp
    obtain ⟨n, t⟩ := x
    simp only [allocEntries] at hp ⊢
    rcases List.mem_cons.mp hp with heq | htail
    · subst heq
      refine ⟨le_refl _, lt_of_lt_of_le ?_ (allocEntries_length_le clone rest (h ++ [clone t]))⟩
      simp
    · have hb := ih (h ++ [clone t]) p htail
      exact ⟨le_trans (by simp) hb.1, hb.2⟩

/-- A cell update is invisible at every other address. -/
theorem setEnabledAt_getElem_ne {α : Type} (setE : α → Bool → α)
    (h : List α) (a j : Nat) (b : Bool) (hne : j ≠ a) :
    (setEnabledAt setE h a b)[j]? = h[j]? := by
  rw [setEnabledAt]
  cases hget : h[a]? with
  | none => rfl
  | some t => exact List.getElem?_set_ne (fun he => hne he.symm)

/-- Mutating a task of one instance is invisible at every task address not
owned by that instance and leaves the option heap untouched. -/
theorem setTaskEnabledRef_frame (c : FedorableCoreRef) (h : Heaps)
    (name : String) (b : Bool) (j : Nat)
    (hj : ∀ p ∈ c.taskAddrs, p.2 ≠ j) :
    (c.setTaskEnabled h name b).taskHeap[j]? = h.taskHeap[j]?
    ∧ (c.setTaskEnabled h name b).optionHeap = h.optionHeap := by
  rw [FedorableCoreRef.setTaskEnabled]
  cases hf : c.taskAddrs.find? (fun p => p.1 = name) with
  | none => exact ⟨rfl, rfl⟩
  | some p =>
    refine ⟨?_, rfl⟩
    have hp : p ∈ c.taskAddrs := List.mem_of_find?_eq_some hf
    exact setEnabledAt_getElem_ne (fun t b => { t with enabled := b })
      h.taskHeap p.2 j b (fun he => hj p hp he.symm)

/-- Mutating an option of one instance is invisible at every option
address not owned by that instance and leaves the task heap untouched. -/
theorem setOptionEnabledRef_frame (c : FedorableCoreRef) (h : Heaps)
    (name : String) (b : Bool) (j : Nat)
    (hj : ∀ p ∈ c.optionAddrs, p.2 ≠ j) :
    (c.setOptionEnabled h name b).optionHeap[j]? = h.optionHeap[j]?
    ∧ (c.setOptionEnabled h name b).taskHeap = h.taskHeap := by
  rw [FedorableCoreRef.setOptionEnabled]
  cases hf : c.optionAddrs.find? (fun p => p.1 = name) with
  | none => exact ⟨rfl, rfl⟩
  | some p =>
    refine ⟨?_, rfl⟩
    have hp : p ∈ c.optionAddrs := List.mem_of_find?_eq_some hf
    exact setEnabledAt_getElem_ne (fun o b => { o with enabled := b })
      h.optionHeap p.2 j b (fun he => hj p hp he.symm)

/-- Two lists agreeing cellwise below a bound have equal prefixes of that
length. -/
theorem take_eq_of_getElem_eq {α : Type} (l1 l2 : List α) (n : Nat)
    (hp : ∀ j, j < n → l1[j]? = l2[j]?) : l1.take n = l2.take n := by
  apply List.ext_getElem?
  intro i
  rw [List.getElem?_take, List.getElem?_take]
  by_cases hi : i < n
  · simp [hi, hp i hi]
  · simp [hi]

/-- Task mutation leaves the option heap untouched. -/
theorem setTaskEnabledRef_optionHeap (c : FedorableCoreRef) (h : Heaps)
    (name : String) (b : Bool) :
    (c.setTaskEnabled h name b).optionHeap = h.optionHeap := by
  rw [FedorableCoreRef.setTaskEnabled]
  cases c.taskAddrs.find? (fun p => p.1 = name) <;> rfl

/-- Option mutation leaves the task heap untouched. -/
theorem setOptionEnabledRef_taskHeap (c : FedorableCoreRef) (h : Heaps)
    (name : String) (b : Bool) :
    (c.setOptionEnabled h name b).taskHeap = h.taskHeap := by
  rw [FedorableCoreRef.setOptionEnabled]
  cases c.optionAddrs.find? (fun p => p.1 = name) <;> rfl

/-- C8: for any two FedorableCore instances created one after the other
from the same class-level registries, mutating the enabled state of a
task or an option of either instance never changes what the other
instance observes of its tasks or options, and never changes any heap
cell that existed before both instances were created (in particular the
class-level registry objects): the working copies are independent
clones. -/
theorem clone_independence (h0 : Heaps) (sp1 sp2 : Option String)
    (name : String) (b : Bool) :
    let r1 := FedorableCoreRef.init sp1 h0
    let c1 := r1.1
    let r2 := FedorableCoreRef.init sp2 r1.2
    let c2 := r2.1
    let h2 := r2.2
    (c2.taskView (c1.setTaskEnabled h2 name b) = c2.taskView h2)
    ∧ (c2.optionView (c1.setTaskEnabled h2 name b) = c2.optionView h2)
    ∧ (c2.taskView (c1.setOptionEnabled h2 name b) = c2.taskView h2)
    ∧ (c2.optionView (c1.setOptionEnabled h2 name b) = c2.optionView h2)
    ∧ (c1.taskView (c2.setTaskEnabled h2 name b) = c1.taskView h2)
    ∧ (c1.optionView (c2.setTaskEnabled h2 name b) = c1.optionView h2)
    ∧ (c1.taskView (c2.setOptionEnabled h2 name b) = c1.taskView h2)
    ∧ (c1.optionView (c2.setOptionEnabled h2 name b) = c1.optionView h2)
    ∧ ((c1.setTaskEnabled h2 name b).taskHeap.take h0.taskHeap.length
        = h2.taskHeap.take h0.taskHeap.length)
    ∧ ((c2.setTaskEnabled h2 name b).taskHeap.take h0.taskHeap.length
        = h2.taskHeap.take h0.taskHeap.length)
    ∧ ((c1.setOptionEnabled h2 name b).optionHeap.take h0.optionHeap.length
        = h2.optionHeap.take h0.optionHeap.length)
    ∧ ((c2.setOptionEnabled h2 name b).optionHeap.take h0.optionHeap.length
        = h2.optionHeap.take h0.optionHeap.length) := by
  intro r1 c1 r2 c2 h2
  have hb1T : ∀ p ∈ c1.taskAddrs,
      h0.taskHeap.length ≤ p.2 ∧ p.2 < r1.2.taskHeap.length :=
    fun p hp => allocEntries_addr_bounds cloneTaskObj TASKS h0.taskHeap p hp
  have hb2T : ∀ p ∈ c2.taskAddrs,
      r1.2.taskHeap.length ≤ p.2 ∧ p.2 < h2.taskHeap.length :=
    fun p hp => allocEntries_addr_bounds cloneTaskObj TASKS r1.2.taskHeap p hp
  have hb1O : ∀ p ∈ c1.optionAddrs,
      h0.optionHeap.length ≤ p.2 ∧ p.2 < r1.2.optionHeap.length :=
    fun p hp => allocEntries_addr_bounds cloneOptionObj OPTIONS h0.optionHeap p hp
  have hb2O : ∀ p ∈ c2.optionAddrs,
      r1.2.optionHeap.length ≤ p.2 ∧ p.2 < h2.optionHeap.length :=
    fun p hp => allocEntries_addr_bounds cloneOptionObj OPTIONS r1.2.optionHeap p hp
  have hL01T : h0.taskHeap.length ≤ r1.2.taskHeap.length :=
    allocEntries_length_le cloneTaskObj TASKS h0.taskHeap
  have hL01O : h0.optionHeap.length ≤ r1.2.optionHeap.length :=
    allocEntries_length_le cloneOptionObj OPTIONS h0.optionHeap
  refine ⟨?_, ?_, ?_, ?_, ?_, ?_, ?_, ?_, ?_, ?_, ?_, ?_⟩
  · rw [FedorableCoreRef.taskView, FedorableCoreRef.taskView]
    apply List.map_congr_left
    intro p hp
    have hne : ∀ q ∈ c1.taskAddrs, q.2 ≠ p.2 := by
      intro q hq
      have h1 := (hb1T q hq).2
      have h2p := (hb2T p hp).1
      omega
    rw [(setTaskEnabledRef_frame c1 h2 name b p.2 hne).1]
  · rw [FedorableCoreRef.optionView, FedorableCoreRef.optionView,
      setTaskEnabledRef_optionHeap]
  · rw [FedorableCoreRef.taskView, FedorableCoreRef.taskView,
      setOptionEnabledRef_taskHeap]
  · rw [FedorableCoreRef.optionView, FedorableCoreRef.optionView]
    apply List.map_congr_left
    intro p hp
    have hne : ∀ q ∈ c1.optionAddrs, q.2 ≠ p.2 := by
      intro q hq
      have h1 := (hb1O q hq).2
      have h2p := (hb2O p hp).1
      omega
    rw [(setOptionEnabledRef_frame c1 h2 name b p.2 hne).1]
  · rw [FedorableCoreRef.taskView, FedorableCoreRef.taskView]
    apply List.map_congr_left
    intro p hp
    have hne : ∀ q ∈ c2.taskAddrs, q.2 ≠ p.2 := by
      intro q hq
      have h1 := (hb2T q hq).1
      have h2p := (hb1T p hp).2
      omega
    rw [(setTaskEnabledRef_frame c2 h2 name b p.2 hne).1]
  · rw [FedorableCoreRef.optionView, FedorableCoreRef.optionView,
      setTaskEnabledRef_optionHeap]
  · rw [FedorableCoreRef.taskView, FedorableCoreRef.taskView,
      setOptionEnabledRef_taskHeap]
  · rw [FedorableCoreRef.optionView, FedorableCoreRef.optionView]
    apply List.map_congr_left
    intro p hp
    have hne : ∀ q ∈ c2.optionAddrs, q.2 ≠ p.2 := by
      intro q hq
      have h1 := (hb2O q hq).1
      have h2p := (hb1O p hp).2
      omega
    rw [(setOptionEnabledRef_frame c2 h2 name b p.2 hne).1]
  · apply take_eq_of_getElem_eq
    intro j hj
    have hne : ∀ q ∈ c1.taskAddrs, q.2 ≠ j := by
      intro q hq
      have h1 := (hb1T q hq).1
      omega
    exact (setTaskEnabledRef_frame c1 h2 name b j hne).1
  · apply take_eq_of_getElem_eq
    intro j hj
    have hne : ∀ q ∈ c2.taskAddrs, q.2 ≠ j := by
      intro q hq
      have h1 := (hb2T q hq).1
      omega
    exact (setTaskEnabledRef_frame c2 h2 name b j hne).1
  · apply take_eq_of_getElem_eq
    intro j hj
    have hne : ∀ q ∈ c1.optionAddrs, q.2 ≠ j := by
      intro q hq
      have h1 := (hb1O q hq).1
      omega
    exact (setOptionEnabledRef_frame c1 h2 name b j hne).1
  · apply take_eq_of_getElem_eq
    intro j hj
    have hne : ∀ q ∈ c2.optionAddrs, q.2 ≠ j := by
      intro q hq
      have h1 := (hb2O q hq).1
      omega
    exact (setOptionEnabledRef_frame c2 h2 name b j hne).1
